import Mathlib

/-!
Verification of the orbital_elements toolkit: state-representation
converters (RV, COE, MEE, MEE-with-epoch-longitude), the Gauss
Variational Equation matrices, the zonal-gravity and constant-thrust
rate generators, and the Hamiltonian (specific mechanical energy)
evaluator.

Numpy double arithmetic is modelled by exact real arithmetic; an
(m, 6) numpy batch is a `List` of per-sample records, and every
operation acts row-wise exactly as the vectorized source does.
-/

namespace OrbitalElements

/-! ### Three-dimensional vectors -/

/-- An inertial-frame 3-vector (used for positions, velocities and
local-frame accelerations). -/
@[ext] structure Vec3 where
  x : ℝ
  y : ℝ
  z : ℝ

/-- Euclidean dot product of two 3-vectors. -/
noncomputable def dot3 (a b : Vec3) : ℝ := a.x * b.x + a.y * b.y + a.z * b.z

/-- Cross product of two 3-vectors. -/
noncomputable def cross3 (a b : Vec3) : Vec3 :=
  ⟨a.y * b.z - a.z * b.y, a.z * b.x - a.x * b.z, a.x * b.y - a.y * b.x⟩

/-- Scalar multiple of a 3-vector. -/
noncomputable def smul3 (c : ℝ) (a : Vec3) : Vec3 := ⟨c * a.x, c * a.y, c * a.z⟩

/-- Sum of two 3-vectors. -/
noncomputable def add3 (a b : Vec3) : Vec3 := ⟨a.x + b.x, a.y + b.y, a.z + b.z⟩

/-- Difference of two 3-vectors. -/
noncomputable def sub3 (a b : Vec3) : Vec3 := ⟨a.x - b.x, a.y - b.y, a.z - b.z⟩

/-- Euclidean norm of a 3-vector (numpy.linalg.norm with ord=2). -/
noncomputable def norm3 (a : Vec3) : ℝ := Real.sqrt (dot3 a a)

/-- Four-quadrant arctangent, modelled by the complex argument of
x + i y, as used to recover angles from vector components. -/
noncomputable def atan2 (y x : ℝ) : ℝ := Complex.arg ⟨x, y⟩

/-! ### State representations (one row of an (m, 6) batch) -/

/-- A position-velocity sample: columns (rx, ry, rz, vx, vy, vz). -/
@[ext] structure RV where
  rx : ℝ
  ry : ℝ
  rz : ℝ
  vx : ℝ
  vy : ℝ
  vz : ℝ

/-- A classical-orbital-element sample: columns (a, e, i, W, w, nu). -/
@[ext] structure COE where
  a : ℝ
  e : ℝ
  i : ℝ
  W : ℝ
  w : ℝ
  nu : ℝ

/-- A modified-equinoctial-element sample: columns (p, f, g, h, k, L).
The same record also carries the MEE-with-epoch-longitude
representation, whose sixth column holds Ml0 instead of L. -/
@[ext] structure MEE where
  p : ℝ
  f : ℝ
  g : ℝ
  h : ℝ
  k : ℝ
  L : ℝ

/-- A generic six-component rate sample (one row of an (m, 6) Xdot). -/
@[ext] structure Vec6 where
  c1 : ℝ
  c2 : ℝ
  c3 : ℝ
  c4 : ℝ
  c5 : ℝ
  c6 : ℝ

/-- Position part of an RV row. -/
noncomputable def rvPos (s : RV) : Vec3 := ⟨s.rx, s.ry, s.rz⟩

/-- Velocity part of an RV row. -/
noncomputable def rvVel (s : RV) : Vec3 := ⟨s.vx, s.vy, s.vz⟩

/-- Build an RV row from a position vector and a velocity vector. -/
noncomputable def mkRV (r v : Vec3) : RV := ⟨r.x, r.y, r.z, v.x, v.y, v.z⟩

/-! ### The equinoctial frame

The orthonormal equinoctial basis (fhat, ghat, what) written in terms
of the node components h, k; what is the angular-momentum direction.
These are the "eccentricity and node vectors" the spec's converters
work with. -/

/-- First equinoctial basis vector. -/
noncomputable def fhat (h k : ℝ) : Vec3 :=
  smul3 (1 / (1 + h ^ 2 + k ^ 2)) ⟨1 + h ^ 2 - k ^ 2, 2 * h * k, -2 * k⟩

/-- Second equinoctial basis vector. -/
noncomputable def ghat (h k : ℝ) : Vec3 :=
  smul3 (1 / (1 + h ^ 2 + k ^ 2)) ⟨2 * h * k, 1 - h ^ 2 + k ^ 2, 2 * h⟩

/-- Third equinoctial basis vector (angular-momentum direction). -/
noncomputable def what (h k : ℝ) : Vec3 :=
  smul3 (1 / (1 + h ^ 2 + k ^ 2)) ⟨2 * k, -2 * h, 1 - h ^ 2 - k ^ 2⟩

/-! ### Representation converters

Only the thin composition wrappers `meeMl0_coe`, `meeMl0_rv` and
`rv_meeMl0` are under src/convert; the workhorse converters they call
are modelled from the spec (section 4.1). -/

/-- Modelled from the spec: `rv_mee` (MEE to RV), absent from src/.
Algebraic reparameterization: position p/w along the true-longitude
direction in the equinoctial frame, velocity from the standard
equinoctial relations, with w = 1 + f cos L + g sin L. -/
noncomputable def rv_mee1 (mu : ℝ) (X : MEE) : RV :=
  mkRV
    (smul3 (X.p / (1 + X.f * Real.cos X.L + X.g * Real.sin X.L))
      (add3 (smul3 (Real.cos X.L) (fhat X.h X.k))
            (smul3 (Real.sin X.L) (ghat X.h X.k))))
    (smul3 (Real.sqrt (mu / X.p))
      (add3 (smul3 (-(Real.sin X.L + X.g)) (fhat X.h X.k))
            (smul3 (Real.cos X.L + X.f) (ghat X.h X.k))))

/-- Angular-momentum vector r x v of an RV sample. -/
noncomputable def hVec (s : RV) : Vec3 := cross3 (rvPos s) (rvVel s)

/-- Eccentricity vector (v x h)/mu - r/|r| of an RV sample. -/
noncomputable def eVec (mu : ℝ) (s : RV) : Vec3 :=
  sub3 (smul3 (1 / mu) (cross3 (rvVel s) (hVec s)))
       (smul3 (1 / norm3 (rvPos s)) (rvPos s))

/-- First node component h recovered from the angular-momentum
direction. -/
noncomputable def nodeH (s : RV) : ℝ :=
  -(hVec s).y / (norm3 (hVec s) + (hVec s).z)

/-- Second node component k recovered from the angular-momentum
direction. -/
noncomputable def nodeK (s : RV) : ℝ :=
  (hVec s).x / (norm3 (hVec s) + (hVec s).z)

/-- Modelled from the spec: `mee_rv` (RV to MEE), absent from src/.
Uses the angular-momentum, eccentricity and node vectors directly:
p from |r x v|^2/mu, (h, k) from the momentum direction, (f, g) by
projecting the eccentricity vector on the equinoctial basis, and the
true longitude from the position's equinoctial components. -/
noncomputable def mee_rv1 (mu : ℝ) (s : RV) : MEE :=
  ⟨dot3 (hVec s) (hVec s) / mu,
   dot3 (eVec mu s) (fhat (nodeH s) (nodeK s)),
   dot3 (eVec mu s) (ghat (nodeH s) (nodeK s)),
   nodeH s,
   nodeK s,
   atan2 (dot3 (rvPos s) (ghat (nodeH s) (nodeK s)))
         (dot3 (rvPos s) (fhat (nodeH s) (nodeK s)))⟩

/-- Modelled from the spec: the mean motion
n = mu^(1/2) p^(-3/2) (1 - f^2 - g^2)^(3/2) used by the
MEE / MEE-with-epoch-longitude converters, written with square roots
(an equivalent standard expression). -/
noncomputable def meanMotion (mu : ℝ) (X : MEE) : ℝ :=
  Real.sqrt mu / Real.sqrt (X.p ^ 3) * Real.sqrt ((1 - X.f ^ 2 - X.g ^ 2) ^ 3)

/-- Modelled from the spec: one row of `meeMl0_mee` (MEE to
MEE-with-epoch-longitude), absent from src/: the longitude angle is
offset by n (t - t0) with epoch t0 = 0. -/
noncomputable def meeMl0_mee1 (mu t : ℝ) (X : MEE) : MEE :=
  ⟨X.p, X.f, X.g, X.h, X.k, X.L - meanMotion mu X * t⟩

/-- Modelled from the spec: one row of `mee_meeMl0`
(MEE-with-epoch-longitude to MEE), absent from src/: the inverse
direction adds the same offset n (t - t0) back. -/
noncomputable def mee_meeMl01 (mu t : ℝ) (X : MEE) : MEE :=
  ⟨X.p, X.f, X.g, X.h, X.k, X.L + meanMotion mu X * t⟩

/-- Modelled from the spec: one row of `mee_coe` (COE to MEE), absent
from src/: the standard algebraic reparameterization
p = a(1-e^2), f = e cos(w+W), g = e sin(w+W), h = tan(i/2) cos W,
k = tan(i/2) sin W, L = W + w + nu. -/
noncomputable def mee_coe1 (X : COE) : MEE :=
  ⟨X.a * (1 - X.e ^ 2),
   X.e * Real.cos (X.w + X.W),
   X.e * Real.sin (X.w + X.W),
   Real.tan (X.i / 2) * Real.cos X.W,
   Real.tan (X.i / 2) * Real.sin X.W,
   X.W + X.w + X.nu⟩

/-- Batch form of the spec-modelled `mee_rv`; the Python function's
mu parameter defaults to 1.0 at its call sites in src/. -/
noncomputable def mee_rv (rv : List RV) (mu : ℝ) : List MEE :=
  rv.map (mee_rv1 mu)

/-- Batch form of the spec-modelled `rv_mee`. -/
noncomputable def rv_mee (mee : List MEE) (mu : ℝ) : List RV :=
  mee.map (rv_mee1 mu)

/-- Batch form of the spec-modelled `meeMl0_mee`, pairing each time
sample with the state row of the same index. -/
noncomputable def meeMl0_mee (T : List ℝ) (X : List MEE) (mu : ℝ) : List MEE :=
  List.zipWith (meeMl0_mee1 mu) T X

/-- Batch form of the spec-modelled `mee_meeMl0`. -/
noncomputable def mee_meeMl0 (T : List ℝ) (X : List MEE) (mu : ℝ) : List MEE :=
  List.zipWith (mee_meeMl01 mu) T X

/-- Batch form of the spec-modelled `mee_coe`. -/
noncomputable def mee_coe (X : List COE) : List MEE :=
  X.map mee_coe1

/-- Modelled from the spec: `rv_coe` (COE to RV), absent from src/,
implemented by composing through MEE (COE to MEE to RV) as section 4.1
prescribes. -/
noncomputable def rv_coe (X : List COE) (mu : ℝ) : List RV :=
  rv_mee (mee_coe X) mu

/-- One row of the spec-modelled `rv_coe`. -/
noncomputable def rv_coe1 (mu : ℝ) (X : COE) : RV :=
  rv_mee1 mu (mee_coe1 X)

/-- Embedding of src/convert/meeMl0_rv.py: `meeMl0_mee(T, mee_rv(rv))`.
The inner calls pass no mu, so their Python default mu = 1.0 is used
and the caller's mu argument is dropped. -/
noncomputable def meeMl0_rv (T : List ℝ) (rv : List RV) (mu : ℝ) : List MEE :=
  meeMl0_mee T (mee_rv rv 1.0) 1.0

/-- Embedding of src/convert/rv_meeMl0.py: `rv_mee(mee_meeMl0(T, meeMl0))`.
The inner calls pass no mu, so their Python default mu = 1.0 is used
and the caller's mu argument is dropped. -/
noncomputable def rv_meeMl0 (T : List ℝ) (meeMl0 : List MEE) (mu : ℝ) : List RV :=
  rv_mee (mee_meeMl0 T meeMl0 1.0) 1.0

/-- Embedding of src/convert/meeMl0_coe.py: `meeMl0_mee(T, mee_coe(coe))`.
The inner call passes no mu, so the Python default mu = 1.0 is used
and the caller's mu argument is dropped. -/
noncomputable def meeMl0_coe (T : List ℝ) (coe : List COE) (mu : ℝ) : List MEE :=
  meeMl0_mee T (mee_coe coe) 1.0

/-- A valid elliptical RV sample: the RV image of modified equinoctial
elements with positive semi-latus rectum and eccentricity-vector
magnitude below one, taken for the toolkit's canonical gravitational
parameter mu = 1.0 (the Python-default value every converter under
src/convert actually passes to the workhorse converters). -/
def ValidEllipticalRV (x : RV) : Prop :=
  ∃ X : MEE, 0 < X.p ∧ X.f ^ 2 + X.g ^ 2 < 1 ∧ x = rv_mee1 1.0 X

/-! ### Hamiltonian (src/rv/hamiltonian.py) -/

/-- The zonal coefficient table `J2_to_6` from Hamiltonian.__call__. -/
noncomputable def J2_to_6 : List ℝ := [1082.63e-6, -2.52e-6, -1.61e-6, -0.15e-6, 0.57e-6]

/-- Python list slice `l[0:stop]`: a negative stop counts from the end
of the list, and out-of-range stops clamp silently. -/
def pysliceStop {α : Type} (l : List α) (stop : ℤ) : List α :=
  if stop < 0 then l.take (l.length - stop.natAbs) else l.take stop.toNat

/-- The i-th zonal potential increment subtracted from V inside the
try-block of Hamiltonian.__call__ (i = 0 is the J2 statement and so
on), as a function of the coefficient J[i] it looks up. -/
noncomputable def zonalVterm (mu r re sp : ℝ) : ℕ → ℝ → ℝ
  | 0, Jc => -Jc / 2 * (mu / r) * (re / r) ^ 2 * (3 * sp ^ 2 - 1)
  | 1, Jc => -Jc / 2 * (mu / r) * (re / r) ^ 3 * (5 * sp ^ 3 - 3 * sp)
  | 2, Jc => -Jc / 8 * (mu / r) * (re / r) ^ 4 * (35 * sp ^ 4 - 30 * sp ^ 2 + 3)
  | 3, Jc => -Jc / 8 * (mu / r) * (re / r) ^ 5 * (63 * sp ^ 5 - 70 * sp ^ 3 + 15 * sp)
  | 4, Jc => -Jc / 16 * (mu / r) * (re / r) ^ 6 *
      (231 * sp ^ 6 - 315 * sp ^ 4 + 105 * sp ^ 2 - 5)
  | _, _ => 0

/-- Configuration of src/rv/hamiltonian.py's Hamiltonian object. -/
structure Hamiltonian where
  mu : ℝ
  order : ℕ
  r_earth : ℝ

/-- The argument defaults of Hamiltonian.__init__ as written in the
source: mu = 1.0, order = 1, r_earth = 1.0. -/
noncomputable def hamiltonianInitDefaults : Hamiltonian := ⟨1.0, 1, 1.0⟩

/-- One row of Hamiltonian.__call__: r and v are the position and
velocity norms, sin phi = z / r, J is the slice `J2_to_6[0:order-1]`,
and V accumulates -mu/r and then the J2..J6 statements of the
try-block.  The try/except IndexError wrapper executes exactly the
statements whose index exists in J (J is a prefix of the five-entry
table, so the first failing lookup aborts all later statements), which
the truncating zipWith over the statement indices 0..4 reproduces
exactly. -/
noncomputable def hamiltonianRow (H : Hamiltonian) (x : RV) : ℝ :=
  let r := norm3 (rvPos x)
  let v := norm3 (rvVel x)
  let sp := x.rz / r
  let J := pysliceStop J2_to_6 ((H.order : ℤ) - 1)
  let V := -H.mu / r - (List.zipWith (zonalVterm H.mu r H.r_earth sp) (List.range 5) J).sum
  0.5 * v ^ 2 + V

/-- Batch form of Hamiltonian.__call__: the (m, 1) output column, one
value per state row; the time batch T is never read by the body. -/
noncomputable def hamiltonianCall (H : Hamiltonian) (T : List ℝ) (X : List RV) : List ℝ :=
  X.map (hamiltonianRow H)

/-- The claim-side standard zonal constant for harmonic n (the same
physical J2..J6 values the source table holds). -/
noncomputable def Jstd : ℕ → ℝ
  | 2 => 1082.63e-6
  | 3 => -2.52e-6
  | 4 => -1.61e-6
  | 5 => -0.15e-6
  | 6 => 0.57e-6
  | _ => 0

/-- The claim-side potential contribution of harmonic n to the
returned V (the net effect of the source's `V -= (-J/c * ...)`
statement for that harmonic). -/
noncomputable def specZonalTerm (mu r re sp : ℝ) : ℕ → ℝ
  | 2 => Jstd 2 / 2 * (mu / r) * (re / r) ^ 2 * (3 * sp ^ 2 - 1)
  | 3 => Jstd 3 / 2 * (mu / r) * (re / r) ^ 3 * (5 * sp ^ 3 - 3 * sp)
  | 4 => Jstd 4 / 8 * (mu / r) * (re / r) ^ 4 * (35 * sp ^ 4 - 30 * sp ^ 2 + 3)
  | 5 => Jstd 5 / 8 * (mu / r) * (re / r) ^ 5 * (63 * sp ^ 5 - 70 * sp ^ 3 + 15 * sp)
  | 6 => Jstd 6 / 16 * (mu / r) * (re / r) ^ 6 *
      (231 * sp ^ 6 - 315 * sp ^ 4 + 105 * sp ^ 2 - 5)
  | _ => 0

/-! ### GVE matrices (modelled from the spec, section 4.2) -/

/-- A 6 x 3 GVE matrix sample: six rows, each dotted against the
local-frame acceleration. -/
@[ext] structure Mat63 where
  r1 : Vec3
  r2 : Vec3
  r3 : Vec3
  r4 : Vec3
  r5 : Vec3
  r6 : Vec3

/-- Product of a 6 x 3 matrix sample with a local-frame acceleration
sample: one row of `G @ u`. -/
noncomputable def matVec63 (G : Mat63) (u : Vec3) : Vec6 :=
  ⟨dot3 G.r1 u, dot3 G.r2 u, dot3 G.r3 u, dot3 G.r4 u, dot3 G.r5 u, dot3 G.r6 u⟩

/-- Modelled from the spec: one sample of the COE GVE matrix (absent
from src/), the standard closed-form Gauss variational equations in
(a, e, i, W, w, nu) with p = a(1-e^2), r = p/(1+e cos nu),
hm = sqrt(mu p) and argument of latitude u = w + nu. -/
noncomputable def coe_gve1 (mu : ℝ) (X : COE) : Mat63 :=
  let p := X.a * (1 - X.e ^ 2)
  let r := p / (1 + X.e * Real.cos X.nu)
  let hm := Real.sqrt (mu * p)
  let u := X.w + X.nu
  ⟨⟨2 * X.a ^ 2 / hm * (X.e * Real.sin X.nu), 2 * X.a ^ 2 / hm * (p / r), 0⟩,
   ⟨p * Real.sin X.nu / hm, ((p + r) * Real.cos X.nu + r * X.e) / hm, 0⟩,
   ⟨0, 0, r * Real.cos u / hm⟩,
   ⟨0, 0, r * Real.sin u / (hm * Real.sin X.i)⟩,
   ⟨-p * Real.cos X.nu / (hm * X.e), (p + r) * Real.sin X.nu / (hm * X.e),
    -r * Real.sin u * Real.cos X.i / (hm * Real.sin X.i)⟩,
   ⟨p * Real.cos X.nu / (hm * X.e), -(p + r) * Real.sin X.nu / (hm * X.e), 0⟩⟩

/-- Batch form of the spec-modelled COE GVE: one matrix per sample,
depending only on that sample's state. -/
noncomputable def coe_gve (mu : ℝ) (T : List ℝ) (X : List COE) : List Mat63 :=
  X.map (coe_gve1 mu)

/-- Modelled from the spec: one sample of the MEE GVE matrix (absent
from src/), the standard closed-form expressions in (p, f, g, h, k, L)
with w = 1 + f cos L + g sin L and s2 = 1 + h^2 + k^2. -/
noncomputable def meeMl0_gve1 (mu : ℝ) (X : MEE) : Mat63 :=
  let sq := Real.sqrt (X.p / mu)
  let w := 1 + X.f * Real.cos X.L + X.g * Real.sin X.L
  let s2 := 1 + X.h ^ 2 + X.k ^ 2
  ⟨⟨0, 2 * X.p / w * sq, 0⟩,
   ⟨sq * Real.sin X.L, sq * (((w + 1) * Real.cos X.L + X.f) / w),
    -sq * (X.g * (X.h * Real.sin X.L - X.k * Real.cos X.L) / w)⟩,
   ⟨-sq * Real.cos X.L, sq * (((w + 1) * Real.sin X.L + X.g) / w),
    sq * (X.f * (X.h * Real.sin X.L - X.k * Real.cos X.L) / w)⟩,
   ⟨0, 0, sq * s2 * Real.cos X.L / (2 * w)⟩,
   ⟨0, 0, sq * s2 * Real.sin X.L / (2 * w)⟩,
   ⟨0, 0, sq * (X.h * Real.sin X.L - X.k * Real.cos X.L) / w⟩⟩

/-- Batch form of the spec-modelled MEE-with-epoch-longitude GVE. -/
noncomputable def meeMl0_gve (mu : ℝ) (T : List ℝ) (X : List MEE) : List Mat63 :=
  X.map (meeMl0_gve1 mu)

/-! ### Zonal-gravity LVLH acceleration (modelled from the spec,
section 4.3 step 2) -/

/-- Derivative in sin phi of the i-th zonal Legendre polynomial slot
(matching the polynomials of `zonalVterm`). -/
noncomputable def zonalPoly' (sp : ℝ) : ℕ → ℝ
  | 0 => 6 * sp
  | 1 => 15 * sp ^ 2 - 3
  | 2 => 140 * sp ^ 3 - 60 * sp
  | 3 => 315 * sp ^ 4 - 210 * sp ^ 2 + 15
  | 4 => 1386 * sp ^ 5 - 1260 * sp ^ 3 + 210 * sp
  | _ => 0

/-- Denominator of the i-th zonal coefficient slot. -/
noncomputable def zonalDen : ℕ → ℝ
  | 0 => 2
  | 1 => 2
  | 2 => 8
  | 3 => 8
  | 4 => 16
  | _ => 1

/-- Numerator polynomial of the i-th zonal coefficient slot. -/
noncomputable def zonalPoly (sp : ℝ) : ℕ → ℝ
  | 0 => 3 * sp ^ 2 - 1
  | 1 => 5 * sp ^ 3 - 3 * sp
  | 2 => 35 * sp ^ 4 - 30 * sp ^ 2 + 3
  | 3 => 63 * sp ^ 5 - 70 * sp ^ 3 + 15 * sp
  | 4 => 231 * sp ^ 6 - 315 * sp ^ 4 + 105 * sp ^ 2 - 5
  | _ => 0

/-- Modelled from the spec: one row of rv.ZonalGravity's
`lvlh_acceleration` (absent from src/): the perturbing acceleration in
the radial/transverse/normal frame, a sum of harmonic terms J2..J_order
obtained as minus the gradient of the J2..J_order disturbing potential
projected on the LVLH basis; order = 1 uses no coefficients and yields
zero, and the coefficient slice follows the same silent truncation as
the source family. -/
noncomputable def lvlhAccel1 (mu : ℝ) (order : ℕ) (re : ℝ) (s : RV) : Vec3 :=
  let r := norm3 (rvPos s)
  let sp := s.rz / r
  let nhat := smul3 (1 / norm3 (hVec s)) (hVec s)
  let rhat := smul3 (1 / r) (rvPos s)
  let that := cross3 nhat rhat
  let J := pysliceStop J2_to_6 ((order : ℤ) - 1)
  let radial := (List.zipWith
    (fun (i : ℕ) (Jc : ℝ) =>
      ((i : ℝ) + 3) * (Jc / zonalDen i * mu * re ^ (i + 2) / r ^ (i + 4)) *
      zonalPoly sp i) (List.range 5) J).sum
  let dVds := (List.zipWith
    (fun (i : ℕ) (Jc : ℝ) =>
      Jc / zonalDen i * mu * re ^ (i + 2) / r ^ (i + 3) * zonalPoly' sp i)
    (List.range 5) J).sum
  ⟨radial, -(dVds / r) * that.z, -(dVds / r) * nhat.z⟩

/-- Batch form of the spec-modelled `lvlh_acceleration`: one LVLH
acceleration sample per state row. -/
noncomputable def lvlhAcceleration (mu : ℝ) (order : ℕ) (re : ℝ)
    (T : List ℝ) (X : List RV) : List Vec3 :=
  X.map (lvlhAccel1 mu order re)

/-! ### COE zonal gravity (src/coe/zonal_gravity.py) -/

/-- Configuration of src/coe/zonal_gravity.py's ZonalGravity object;
the __init__ defaults are mu = 1.0, order = 2, r_earth = 1.0. -/
structure CoeZonalGravity where
  mu : ℝ
  order : ℕ
  r_earth : ℝ

/-- The argument defaults of coe ZonalGravity.__init__ as written in
the source: mu = 1.0, order = 2, r_earth = 1.0. -/
noncomputable def coeZonalGravityInitDefaults : CoeZonalGravity := ⟨1.0, 2, 1.0⟩

/-- Embedding of coe ZonalGravity.__call__: build the rv-representation
zonal model from this object's configuration, evaluate its LVLH
acceleration on the RV-converted state `convert.rv_coe(X)` (the Python
call passes no mu, so rv_coe's default mu = 1.0 applies), evaluate the
COE GVE matrix `GVE()(T, X)` on the original X (GVE() is constructed
with its default mu = 1.0), and return the per-sample products. -/
noncomputable def coeZonalGravityCall (zg : CoeZonalGravity) (T : List ℝ)
    (X : List COE) : List Vec6 :=
  let a_d := lvlhAcceleration zg.mu zg.order zg.r_earth T (rv_coe X 1.0)
  let G := coe_gve 1.0 T X
  List.zipWith matVec63 G a_d

/-! ### Constant thrust (src/meeMl0/constant_thrust.py) -/

/-- The attributes of a ConstantThrust object: the fixed LVLH
acceleration vector, mu, and the readable `u` attribute that __init__
sets to the empty array and __call__ overwrites. -/
structure ConstantThrust where
  vector : Vec3
  mu : ℝ
  u : List Vec3

/-- Embedding of ConstantThrust.__init__ (mu's Python default is 1.0):
stores the vector and mu and sets u to the empty array. -/
noncomputable def constantThrustMk (vector : Vec3) (mu : ℝ) : ConstantThrust :=
  ⟨vector, mu, []⟩

/-- Embedding of ConstantThrust.__call__: tiles the stored vector over
the m = len(T) samples, evaluates the GVE matrix `GVE(mu=self.mu)(T, X)`,
assigns the tiled array to self.u, and returns the per-sample products
G @ u.  The first component is the object after the call (its mutated
attribute state), the second the returned (m, 6) batch. -/
noncomputable def constantThrustCall (c : ConstantThrust) (T : List ℝ)
    (X : List MEE) : ConstantThrust × List Vec6 :=
  let u := List.replicate T.length c.vector
  let G := meeMl0_gve c.mu T X
  (⟨c.vector, c.mu, u⟩, List.zipWith matVec63 G u)

/-! ### Vector-algebra lemmas -/

lemma dot3_comm (u v : Vec3) : dot3 u v = dot3 v u := by
  unfold dot3; ring

lemma dot3_combo (a b a' b' : ℝ) (u v : Vec3) :
    dot3 (add3 (smul3 a u) (smul3 b v)) (add3 (smul3 a' u) (smul3 b' v)) =
      a * a' * dot3 u u + (a * b' + b * a') * dot3 u v + b * b' * dot3 v v := by
  unfold dot3 add3 smul3; dsimp; ring

lemma dot3_combo_left (a b : ℝ) (u v w : Vec3) :
    dot3 (add3 (smul3 a u) (smul3 b v)) w = a * dot3 u w + b * dot3 v w := by
  unfold dot3 add3 smul3; dsimp; ring

lemma dot3_smul_smul (a : ℝ) (u : Vec3) :
    dot3 (smul3 a u) (smul3 a u) = a ^ 2 * dot3 u u := by
  unfold dot3 smul3; dsimp; ring

lemma cross3_smul_left (c : ℝ) (u v : Vec3) :
    cross3 (smul3 c u) v = smul3 c (cross3 u v) := by
  unfold cross3 smul3; ext <;> dsimp <;> ring

lemma cross3_smul_right (c : ℝ) (u v : Vec3) :
    cross3 u (smul3 c v) = smul3 c (cross3 u v) := by
  unfold cross3 smul3; ext <;> dsimp <;> ring

lemma cross3_combo (a b a' b' : ℝ) (u v : Vec3) :
    cross3 (add3 (smul3 a u) (smul3 b v)) (add3 (smul3 a' u) (smul3 b' v)) =
      smul3 (a * b' - b * a') (cross3 u v) := by
  unfold cross3 add3 smul3; ext <;> dsimp <;> ring

lemma cross3_combo_left (a b : ℝ) (u v w : Vec3) :
    cross3 (add3 (smul3 a u) (smul3 b v)) w =
      add3 (smul3 a (cross3 u w)) (smul3 b (cross3 v w)) := by
  unfold cross3 add3 smul3; ext <;> dsimp <;> ring

lemma sub3_combo (a b a' b' : ℝ) (u v : Vec3) :
    sub3 (add3 (smul3 a u) (smul3 b v)) (add3 (smul3 a' u) (smul3 b' v)) =
      add3 (smul3 (a - a') u) (smul3 (b - b') v) := by
  unfold sub3 add3 smul3; ext <;> dsimp <;> ring

lemma smul3_smul3 (a b : ℝ) (u : Vec3) : smul3 a (smul3 b u) = smul3 (a * b) u := by
  unfold smul3; ext <;> dsimp <;> ring

lemma smul3_add3 (a : ℝ) (u v : Vec3) :
    smul3 a (add3 u v) = add3 (smul3 a u) (smul3 a v) := by
  unfold smul3 add3; ext <;> dsimp <;> ring

/-! ### Orthonormality of the equinoctial frame -/

lemma s2_pos (h k : ℝ) : 0 < 1 + h ^ 2 + k ^ 2 := by positivity

lemma s2_ne (h k : ℝ) : 1 + h ^ 2 + k ^ 2 ≠ 0 := ne_of_gt (s2_pos h k)

lemma dot3_fhat_fhat (h k : ℝ) : dot3 (fhat h k) (fhat h k) = 1 := by
  unfold dot3 fhat smul3; dsimp
  field_simp
  ring

lemma dot3_ghat_ghat (h k : ℝ) : dot3 (ghat h k) (ghat h k) = 1 := by
  unfold dot3 ghat smul3; dsimp
  field_simp
  ring

lemma dot3_fhat_ghat (h k : ℝ) : dot3 (fhat h k) (ghat h k) = 0 := by
  unfold dot3 fhat ghat smul3; dsimp
  field_simp
  ring

lemma dot3_what_what (h k : ℝ) : dot3 (what h k) (what h k) = 1 := by
  unfold dot3 what smul3; dsimp
  field_simp
  ring

lemma cross3_fhat_ghat (h k : ℝ) : cross3 (fhat h k) (ghat h k) = what h k := by
  unfold cross3 fhat ghat what smul3
  ext <;> dsimp <;> field_simp <;> ring

lemma cross3_fhat_what (h k : ℝ) :
    cross3 (fhat h k) (what h k) = smul3 (-1) (ghat h k) := by
  unfold cross3 fhat ghat what smul3
  ext <;> dsimp <;> field_simp <;> ring

lemma cross3_ghat_what (h k : ℝ) : cross3 (ghat h k) (what h k) = fhat h k := by
  unfold cross3 fhat ghat what smul3
  ext <;> dsimp <;> field_simp <;> ring

/-! ### Positivity facts for valid elliptical elements -/

/-- For an eccentricity vector of magnitude below one the equinoctial
denominator w = 1 + f cos L + g sin L stays positive. -/
lemma w_pos (f g cL sL : ℝ) (hcs : sL ^ 2 + cL ^ 2 = 1) (he : f ^ 2 + g ^ 2 < 1) :
    0 < 1 + f * cL + g * sL := by
  have key : (f * cL + g * sL) ^ 2 + (f * sL - g * cL) ^ 2 = f ^ 2 + g ^ 2 := by
    linear_combination (f ^ 2 + g ^ 2) * hcs
  have h2 : (f * cL + g * sL) ^ 2 ≤ f ^ 2 + g ^ 2 := by
    nlinarith [sq_nonneg (f * sL - g * cL)]
  have h3 : (f * cL + g * sL) ^ 2 < 1 := lt_of_le_of_lt h2 he
  nlinarith [h3]

/-! ### Recovery of the elements through the RV hub -/

lemma rvPos_mkRV (r v : Vec3) : rvPos (mkRV r v) = r := rfl

lemma rvVel_mkRV (r v : Vec3) : rvVel (mkRV r v) = v := rfl

lemma rvPos_rv_mee1 (mu : ℝ) (X : MEE) :
    rvPos (rv_mee1 mu X) =
      smul3 (X.p / (1 + X.f * Real.cos X.L + X.g * Real.sin X.L))
        (add3 (smul3 (Real.cos X.L) (fhat X.h X.k))
              (smul3 (Real.sin X.L) (ghat X.h X.k))) := rfl

lemma rvVel_rv_mee1 (mu : ℝ) (X : MEE) :
    rvVel (rv_mee1 mu X) =
      smul3 (Real.sqrt (mu / X.p))
        (add3 (smul3 (-(Real.sin X.L + X.g)) (fhat X.h X.k))
              (smul3 (Real.cos X.L + X.f) (ghat X.h X.k))) := rfl

lemma hVec_rv_mee1 (mu : ℝ) (X : MEE) (he : X.f ^ 2 + X.g ^ 2 < 1) :
    hVec (rv_mee1 mu X) =
      smul3 (X.p * Real.sqrt (mu / X.p)) (what X.h X.k) := by
  have hcs := Real.sin_sq_add_cos_sq X.L
  have hw : 0 < 1 + X.f * Real.cos X.L + X.g * Real.sin X.L := w_pos _ _ _ _ hcs he
  unfold hVec
  rw [rvPos_rv_mee1, rvVel_rv_mee1, cross3_smul_left, cross3_smul_right, cross3_combo,
    cross3_fhat_ghat, smul3_smul3, smul3_smul3]
  congr 1
  have hdet : Real.cos X.L * (Real.cos X.L + X.f) -
      Real.sin X.L * -(Real.sin X.L + X.g) =
      1 + X.f * Real.cos X.L + X.g * Real.sin X.L := by linear_combination hcs
  rw [hdet]
  field_simp

lemma dot3_hVec_rv_mee1 (mu : ℝ) (X : MEE) (hmu : 0 < mu) (hp : 0 < X.p)
    (he : X.f ^ 2 + X.g ^ 2 < 1) :
    dot3 (hVec (rv_mee1 mu X)) (hVec (rv_mee1 mu X)) = mu * X.p := by
  rw [hVec_rv_mee1 mu X he, dot3_smul_smul, dot3_what_what, mul_one, mul_pow,
    Real.sq_sqrt (le_of_lt (div_pos hmu hp))]
  field_simp
  ring

lemma norm3_hVec_rv_mee1 (mu : ℝ) (X : MEE) (hmu : 0 < mu) (hp : 0 < X.p)
    (he : X.f ^ 2 + X.g ^ 2 < 1) :
    norm3 (hVec (rv_mee1 mu X)) = X.p * Real.sqrt (mu / X.p) := by
  have hnn : (0:ℝ) ≤ X.p * Real.sqrt (mu / X.p) := by positivity
  rw [norm3, hVec_rv_mee1 mu X he, dot3_smul_smul, dot3_what_what, mul_one,
    Real.sqrt_sq hnn]

lemma norm3_rvPos_rv_mee1 (mu : ℝ) (X : MEE) (hp : 0 < X.p)
    (he : X.f ^ 2 + X.g ^ 2 < 1) :
    norm3 (rvPos (rv_mee1 mu X)) =
      X.p / (1 + X.f * Real.cos X.L + X.g * Real.sin X.L) := by
  have hcs := Real.sin_sq_add_cos_sq X.L
  have hw : 0 < 1 + X.f * Real.cos X.L + X.g * Real.sin X.L := w_pos _ _ _ _ hcs he
  have hrho : (0:ℝ) ≤ X.p / (1 + X.f * Real.cos X.L + X.g * Real.sin X.L) :=
    le_of_lt (div_pos hp hw)
  have hunit : dot3
      (add3 (smul3 (Real.cos X.L) (fhat X.h X.k)) (smul3 (Real.sin X.L) (ghat X.h X.k)))
      (add3 (smul3 (Real.cos X.L) (fhat X.h X.k)) (smul3 (Real.sin X.L) (ghat X.h X.k)))
      = 1 := by
    rw [dot3_combo, dot3_fhat_fhat, dot3_ghat_ghat, dot3_fhat_ghat]
    linear_combination hcs
  rw [norm3, rvPos_rv_mee1, dot3_smul_smul, hunit, mul_one, Real.sqrt_sq hrho]

lemma denom_node_rv_mee1 (mu : ℝ) (X : MEE) (hmu : 0 < mu) (hp : 0 < X.p)
    (he : X.f ^ 2 + X.g ^ 2 < 1) :
    norm3 (hVec (rv_mee1 mu X)) + (hVec (rv_mee1 mu X)).z =
      X.p * Real.sqrt (mu / X.p) * 2 / (1 + X.h ^ 2 + X.k ^ 2) := by
  have hs2 := s2_ne X.h X.k
  rw [norm3_hVec_rv_mee1 mu X hmu hp he, hVec_rv_mee1 mu X he]
  simp [smul3, what]
  field_simp
  ring

lemma twoFrac_aux (a b d : ℝ) (hb : b ≠ 0) (hd : d ≠ 0) :
    b * (2 * a) / d / (b * 2 / d) = a := by
  field_simp
  ring

lemma nodeK_rv_mee1 (mu : ℝ) (X : MEE) (hmu : 0 < mu) (hp : 0 < X.p)
    (he : X.f ^ 2 + X.g ^ 2 < 1) :
    nodeK (rv_mee1 mu X) = X.k := by
  have hc : 0 < Real.sqrt (mu / X.p) := Real.sqrt_pos.mpr (div_pos hmu hp)
  have hs2 := s2_ne X.h X.k
  have hx : (hVec (rv_mee1 mu X)).x =
      X.p * Real.sqrt (mu / X.p) * (2 * X.k) / (1 + X.h ^ 2 + X.k ^ 2) := by
    rw [hVec_rv_mee1 mu X he]
    simp [smul3, what]
    ring
  unfold nodeK
  rw [denom_node_rv_mee1 mu X hmu hp he, hx]
  exact twoFrac_aux X.k _ _ (mul_pos hp hc).ne' hs2

lemma nodeH_rv_mee1 (mu : ℝ) (X : MEE) (hmu : 0 < mu) (hp : 0 < X.p)
    (he : X.f ^ 2 + X.g ^ 2 < 1) :
    nodeH (rv_mee1 mu X) = X.h := by
  have hc : 0 < Real.sqrt (mu / X.p) := Real.sqrt_pos.mpr (div_pos hmu hp)
  have hs2 := s2_ne X.h X.k
  have hy : (hVec (rv_mee1 mu X)).y =
      -(X.p * Real.sqrt (mu / X.p) * (2 * X.h) / (1 + X.h ^ 2 + X.k ^ 2)) := by
    rw [hVec_rv_mee1 mu X he]
    simp [smul3, what]
    ring
  unfold nodeH
  rw [denom_node_rv_mee1 mu X hmu hp he, hy, neg_neg]
  exact twoFrac_aux X.h _ _ (mul_pos hp hc).ne' hs2

lemma eVec_rv_mee1 (mu : ℝ) (X : MEE) (hmu : 0 < mu) (hp : 0 < X.p)
    (he : X.f ^ 2 + X.g ^ 2 < 1) :
    eVec mu (rv_mee1 mu X) =
      add3 (smul3 X.f (fhat X.h X.k)) (smul3 X.g (ghat X.h X.k)) := by
  have hcs := Real.sin_sq_add_cos_sq X.L
  have hw : 0 < 1 + X.f * Real.cos X.L + X.g * Real.sin X.L := w_pos _ _ _ _ hcs he
  have hc2 : Real.sqrt (mu / X.p) ^ 2 = mu / X.p :=
    Real.sq_sqrt (le_of_lt (div_pos hmu hp))
  have hpc2 : X.p * Real.sqrt (mu / X.p) ^ 2 = mu := by
    rw [hc2]; field_simp
  have hw' := hw.ne'
  have hp' := hp.ne'
  have hc' : Real.sqrt (mu / X.p) ≠ 0 :=
    (Real.sqrt_pos.mpr (div_pos hmu hp)).ne'
  unfold eVec
  rw [norm3_rvPos_rv_mee1 mu X hp he, rvVel_rv_mee1, rvPos_rv_mee1,
    hVec_rv_mee1 mu X he, cross3_smul_left, cross3_smul_right, cross3_combo_left,
    cross3_fhat_what, cross3_ghat_what]
  obtain ⟨c, hcdef⟩ : ∃ c, Real.sqrt (mu / X.p) = c := ⟨_, rfl⟩
  rw [hcdef]
  have hc0 : c ≠ 0 := hcdef ▸ hc'
  have hmu2 : mu = X.p * c ^ 2 := by rw [← hcdef, hc2]; field_simp
  rw [hmu2]
  ext <;> simp [smul3, add3, sub3] <;> field_simp <;> ring

lemma dot3_smul_left (a : ℝ) (u v : Vec3) : dot3 (smul3 a u) v = a * dot3 u v := by
  unfold dot3 smul3; dsimp; ring

lemma p_rv_mee1 (mu : ℝ) (X : MEE) (hmu : 0 < mu) (hp : 0 < X.p)
    (he : X.f ^ 2 + X.g ^ 2 < 1) :
    (mee_rv1 mu (rv_mee1 mu X)).p = X.p := by
  show dot3 (hVec (rv_mee1 mu X)) (hVec (rv_mee1 mu X)) / mu = X.p
  rw [dot3_hVec_rv_mee1 mu X hmu hp he]
  field_simp

lemma f_rv_mee1 (mu : ℝ) (X : MEE) (hmu : 0 < mu) (hp : 0 < X.p)
    (he : X.f ^ 2 + X.g ^ 2 < 1) :
    (mee_rv1 mu (rv_mee1 mu X)).f = X.f := by
  show dot3 (eVec mu (rv_mee1 mu X))
      (fhat (nodeH (rv_mee1 mu X)) (nodeK (rv_mee1 mu X))) = X.f
  rw [nodeH_rv_mee1 mu X hmu hp he, nodeK_rv_mee1 mu X hmu hp he,
    eVec_rv_mee1 mu X hmu hp he, dot3_combo_left,
    dot3_comm (ghat X.h X.k) (fhat X.h X.k), dot3_fhat_fhat, dot3_fhat_ghat]
  ring

lemma g_rv_mee1 (mu : ℝ) (X : MEE) (hmu : 0 < mu) (hp : 0 < X.p)
    (he : X.f ^ 2 + X.g ^ 2 < 1) :
    (mee_rv1 mu (rv_mee1 mu X)).g = X.g := by
  show dot3 (eVec mu (rv_mee1 mu X))
      (ghat (nodeH (rv_mee1 mu X)) (nodeK (rv_mee1 mu X))) = X.g
  rw [nodeH_rv_mee1 mu X hmu hp he, nodeK_rv_mee1 mu X hmu hp he,
    eVec_rv_mee1 mu X hmu hp he, dot3_combo_left, dot3_fhat_ghat, dot3_ghat_ghat]
  ring

lemma cos_atan2_scaled (rho cL sL : ℝ) (hrho : 0 < rho)
    (hcs : sL ^ 2 + cL ^ 2 = 1) :
    Real.cos (atan2 (rho * sL) (rho * cL)) = cL := by
  have habs : Complex.abs ⟨rho * cL, rho * sL⟩ = rho := by
    rw [Complex.abs_apply, Complex.normSq_mk]
    have hsum : rho * cL * (rho * cL) + rho * sL * (rho * sL) = rho ^ 2 := by
      linear_combination rho ^ 2 * hcs
    rw [hsum, Real.sqrt_sq hrho.le]
  have hz : (⟨rho * cL, rho * sL⟩ : ℂ) ≠ 0 := by
    intro h0
    have h1 : Complex.abs ⟨rho * cL, rho * sL⟩ = 0 := by rw [h0]; simp
    rw [habs] at h1
    exact hrho.ne' h1
  unfold atan2
  rw [Complex.cos_arg hz, habs]
  show rho * cL / rho = cL
  field_simp

lemma sin_atan2_scaled (rho cL sL : ℝ) (hrho : 0 < rho)
    (hcs : sL ^ 2 + cL ^ 2 = 1) :
    Real.sin (atan2 (rho * sL) (rho * cL)) = sL := by
  have habs : Complex.abs ⟨rho * cL, rho * sL⟩ = rho := by
    rw [Complex.abs_apply, Complex.normSq_mk]
    have hsum : rho * cL * (rho * cL) + rho * sL * (rho * sL) = rho ^ 2 := by
      linear_combination rho ^ 2 * hcs
    rw [hsum, Real.sqrt_sq hrho.le]
  unfold atan2
  rw [Complex.sin_arg, habs]
  show rho * sL / rho = sL
  field_simp

lemma posdotf_rv_mee1 (mu : ℝ) (X : MEE) :
    dot3 (rvPos (rv_mee1 mu X)) (fhat X.h X.k) =
      X.p / (1 + X.f * Real.cos X.L + X.g * Real.sin X.L) * Real.cos X.L := by
  rw [rvPos_rv_mee1, dot3_smul_left, dot3_combo_left,
    dot3_comm (ghat X.h X.k) (fhat X.h X.k), dot3_fhat_fhat, dot3_fhat_ghat]
  ring

lemma posdotg_rv_mee1 (mu : ℝ) (X : MEE) :
    dot3 (rvPos (rv_mee1 mu X)) (ghat X.h X.k) =
      X.p / (1 + X.f * Real.cos X.L + X.g * Real.sin X.L) * Real.sin X.L := by
  rw [rvPos_rv_mee1, dot3_smul_left, dot3_combo_left, dot3_fhat_ghat, dot3_ghat_ghat]
  ring

lemma cosL_rv_mee1 (mu : ℝ) (X : MEE) (hmu : 0 < mu) (hp : 0 < X.p)
    (he : X.f ^ 2 + X.g ^ 2 < 1) :
    Real.cos (mee_rv1 mu (rv_mee1 mu X)).L = Real.cos X.L := by
  have hcs := Real.sin_sq_add_cos_sq X.L
  have hw : 0 < 1 + X.f * Real.cos X.L + X.g * Real.sin X.L := w_pos _ _ _ _ hcs he
  have hrho : 0 < X.p / (1 + X.f * Real.cos X.L + X.g * Real.sin X.L) := div_pos hp hw
  show Real.cos (atan2 (dot3 (rvPos (rv_mee1 mu X))
      (ghat (nodeH (rv_mee1 mu X)) (nodeK (rv_mee1 mu X))))
      (dot3 (rvPos (rv_mee1 mu X))
      (fhat (nodeH (rv_mee1 mu X)) (nodeK (rv_mee1 mu X))))) = Real.cos X.L
  rw [nodeH_rv_mee1 mu X hmu hp he, nodeK_rv_mee1 mu X hmu hp he,
    posdotf_rv_mee1, posdotg_rv_mee1]
  exact cos_atan2_scaled _ _ _ hrho hcs

lemma sinL_rv_mee1 (mu : ℝ) (X : MEE) (hmu : 0 < mu) (hp : 0 < X.p)
    (he : X.f ^ 2 + X.g ^ 2 < 1) :
    Real.sin (mee_rv1 mu (rv_mee1 mu X)).L = Real.sin X.L := by
  have hcs := Real.sin_sq_add_cos_sq X.L
  have hw : 0 < 1 + X.f * Real.cos X.L + X.g * Real.sin X.L := w_pos _ _ _ _ hcs he
  have hrho : 0 < X.p / (1 + X.f * Real.cos X.L + X.g * Real.sin X.L) := div_pos hp hw
  show Real.sin (atan2 (dot3 (rvPos (rv_mee1 mu X))
      (ghat (nodeH (rv_mee1 mu X)) (nodeK (rv_mee1 mu X))))
      (dot3 (rvPos (rv_mee1 mu X))
      (fhat (nodeH (rv_mee1 mu X)) (nodeK (rv_mee1 mu X))))) = Real.sin X.L
  rw [nodeH_rv_mee1 mu X hmu hp he, nodeK_rv_mee1 mu X hmu hp he,
    posdotf_rv_mee1, posdotg_rv_mee1]
  exact sin_atan2_scaled _ _ _ hrho hcs

/-- The MEE to RV map reads the angle only through its cosine and
sine, so it identifies elements that agree elsewhere and have equal
angle cosine and sine. -/
lemma rv_mee1_congr (mu : ℝ) (X Y : MEE) (hpq : X.p = Y.p) (hf : X.f = Y.f)
    (hg : X.g = Y.g) (hh : X.h = Y.h) (hk : X.k = Y.k)
    (hcos : Real.cos X.L = Real.cos Y.L) (hsin : Real.sin X.L = Real.sin Y.L) :
    rv_mee1 mu X = rv_mee1 mu Y := by
  unfold rv_mee1
  rw [hpq, hf, hg, hh, hk, hcos, hsin]

/-- The epoch-longitude offset of the modelled converters cancels
exactly on the way out and back: the mean motion depends only on the
unchanged elements p, f, g. -/
lemma mee_meeMl01_meeMl0_mee1 (mu t : ℝ) (X : MEE) :
    mee_meeMl01 mu t (meeMl0_mee1 mu t X) = X := by
  unfold mee_meeMl01 meeMl0_mee1 meanMotion
  ext <;> first
  | (dsimp; ring)
  | dsimp

/-- Single-sample round trip through the MEE-with-epoch-longitude hub
for an elliptical state given as the RV image of valid elements. -/
lemma roundtrip1 (mu t : ℝ) (X : MEE) (hmu : 0 < mu) (hp : 0 < X.p)
    (he : X.f ^ 2 + X.g ^ 2 < 1) :
    rv_mee1 mu (mee_meeMl01 mu t (meeMl0_mee1 mu t (mee_rv1 mu (rv_mee1 mu X)))) =
      rv_mee1 mu X := by
  rw [mee_meeMl01_meeMl0_mee1]
  exact rv_mee1_congr mu _ X (p_rv_mee1 mu X hmu hp he) (f_rv_mee1 mu X hmu hp he)
    (g_rv_mee1 mu X hmu hp he) (nodeH_rv_mee1 mu X hmu hp he)
    (nodeK_rv_mee1 mu X hmu hp he) (cosL_rv_mee1 mu X hmu hp he)
    (sinL_rv_mee1 mu X hmu hp he)

/-! ### Claim C1: round trip through the MEE-with-epoch-longitude hub -/

/-- C1: for every time batch T, every RV batch of valid elliptical
states of matching length, and every mu, converting to
MEE-with-epoch-longitude and back, rv_meeMl0(T, meeMl0_rv(T, rv, mu), mu),
reproduces the original RV batch; in this exact-real model the round
trip is an identity, which is stronger than the claimed 1e-9 relative
floating tolerance. -/
theorem claim1_meeMl0_hub_roundtrip (T : List ℝ) (rv : List RV) (mu : ℝ)
    (hlen : T.length = rv.length)
    (hval : ∀ x ∈ rv, ValidEllipticalRV x) :
    rv_meeMl0 T (meeMl0_rv T rv mu) mu = rv := by
  unfold rv_meeMl0 meeMl0_rv mee_rv rv_mee meeMl0_mee mee_meeMl0
  induction T generalizing rv with
  | nil =>
    cases rv with
    | nil => rfl
    | cons x xs => exact absurd hlen (by simp)
  | cons t ts ih =>
    cases rv with
    | nil => exact absurd hlen (by simp)
    | cons x xs =>
      simp only [List.map_cons, List.zipWith_cons_cons]
      obtain ⟨X, hp, he, hxeq⟩ := hval x (List.mem_cons_self x xs)
      have hhead : rv_mee1 1.0 (mee_meeMl01 1.0 t (meeMl0_mee1 1.0 t (mee_rv1 1.0 x)))
          = x := by
        rw [hxeq]
        exact roundtrip1 1.0 t X (by norm_num) hp he
      rw [hhead]
      have hlen' : ts.length = xs.length := by
        simpa using hlen
      have hval' : ∀ y ∈ xs, ValidEllipticalRV y := fun y hy =>
        hval y (List.mem_cons_of_mem x hy)
      rw [ih xs hlen' hval']

/-- C1 witness: the round trip applied to the circular equatorial
elliptical sample with p = 1 at time 0 returns the sample unchanged. -/
theorem claim1_meeMl0_hub_roundtrip_witness :
    rv_meeMl0 [0] (meeMl0_rv [0] [rv_mee1 1.0 ⟨1, 0, 0, 0, 0, 0⟩] 1) 1 =
      [rv_mee1 1.0 ⟨1, 0, 0, 0, 0, 0⟩] :=
  claim1_meeMl0_hub_roundtrip [0] [rv_mee1 1.0 ⟨1, 0, 0, 0, 0, 0⟩] 1 (by simp)
    (fun x hx => by
      rw [List.mem_singleton] at hx
      exact ⟨⟨1, 0, 0, 0, 0, 0⟩, by norm_num, by norm_num, hx⟩)

/-! ### Claim C9: the Hamiltonian ignores the time batch -/

/-- C9: for any two time batches of the same length and the same state
batch and configuration, Hamiltonian.__call__ returns the same values:
the body never reads T. -/
theorem claim9_hamiltonian_time_independent (H : Hamiltonian) (T1 T2 : List ℝ)
    (X : List RV) (hlen : T1.length = T2.length) :
    hamiltonianCall H T1 X = hamiltonianCall H T2 X := rfl

/-- C9 witness: concrete instance with time batches [0] and [42]. -/
theorem claim9_hamiltonian_time_independent_witness :
    hamiltonianCall ⟨1, 1, 1⟩ [0] [⟨1, 0, 0, 0, 1, 0⟩] =
      hamiltonianCall ⟨1, 1, 1⟩ [42] [⟨1, 0, 0, 0, 1, 0⟩] :=
  claim9_hamiltonian_time_independent ⟨1, 1, 1⟩ [0] [42] [⟨1, 0, 0, 0, 1, 0⟩] rfl

/-! ### Claim C4: order above 6 does not fail -/

/-- C4 (code_bug evidence): with order = 7 the Hamiltonian does not
fail with UnsupportedOrder; the slice J2_to_6[0:6] silently clamps to
the whole five-entry table, so every input evaluates exactly as
order = 6 does. -/
theorem claim4_order7_evaluates_as_order6 (mu re : ℝ) (T : List ℝ) (X : List RV) :
    hamiltonianCall ⟨mu, 7, re⟩ T X = hamiltonianCall ⟨mu, 6, re⟩ T X := by
  have hrow : hamiltonianRow ⟨mu, 7, re⟩ = hamiltonianRow ⟨mu, 6, re⟩ := by
    funext x
    rfl
  unfold hamiltonianCall
  rw [hrow]

/-! ### Claim C5: the converters drop the caller's mu -/

/-- C5 (code_bug evidence): the wrappers meeMl0_rv, rv_meeMl0 and
meeMl0_coe never pass the caller's mu to the inner converters, so their
results are identical for every mu; yet the underlying epoch-longitude
offset does depend on mu (last conjunct: same state and time, mu = 4
versus mu = 1, different mean-motion offsets). -/
theorem claim5_mu_not_forwarded :
    (∀ (T : List ℝ) (rv : List RV) (mu : ℝ), meeMl0_rv T rv mu = meeMl0_rv T rv 1) ∧
    (∀ (T : List ℝ) (x : List MEE) (mu : ℝ), rv_meeMl0 T x mu = rv_meeMl0 T x 1) ∧
    (∀ (T : List ℝ) (x : List COE) (mu : ℝ), meeMl0_coe T x mu = meeMl0_coe T x 1) ∧
    meeMl0_mee [1] [⟨4, 0, 0, 0, 0, 0⟩] 4 ≠ meeMl0_mee [1] [⟨4, 0, 0, 0, 0, 0⟩] 1 := by
  refine ⟨fun T rv mu => rfl, fun T x mu => rfl, fun T x mu => rfl, ?_⟩
  have h4 : Real.sqrt 4 = 2 := by
    rw [show (4:ℝ) = 2 ^ 2 by norm_num, Real.sqrt_sq]
    norm_num
  have h64 : Real.sqrt (64:ℝ) = 8 := by
    rw [show ((64:ℝ)) = 8 ^ 2 by norm_num, Real.sqrt_sq]
    norm_num
  intro hcontra
  simp only [meeMl0_mee, List.zipWith_cons_cons, List.zipWith_nil_left,
    List.cons.injEq, and_true] at hcontra
  have hL := congrArg MEE.L hcontra
  simp only [meeMl0_mee1, meanMotion] at hL
  norm_num [h4, h64, Real.sqrt_one] at hL

/-! ### Claim C7: ConstantThrust.__call__ overwrites self.u -/

/-- C7 (code_bug evidence): calling a freshly constructed
ConstantThrust object on a one-sample batch leaves vector and mu
unchanged but replaces the u attribute (empty at construction) with
the tiled acceleration, so the call is not attribute-preserving. -/
theorem claim7_constant_thrust_overwrites_u :
    ((constantThrustCall (constantThrustMk ⟨1, 2, 3⟩ 1) [0] [⟨1, 0, 0, 0, 0, 0⟩]).1.vector
        = (constantThrustMk ⟨1, 2, 3⟩ 1).vector) ∧
    ((constantThrustCall (constantThrustMk ⟨1, 2, 3⟩ 1) [0] [⟨1, 0, 0, 0, 0, 0⟩]).1.mu
        = (constantThrustMk ⟨1, 2, 3⟩ 1).mu) ∧
    (constantThrustCall (constantThrustMk ⟨1, 2, 3⟩ 1) [0] [⟨1, 0, 0, 0, 0, 0⟩]).1.u
        ≠ (constantThrustMk ⟨1, 2, 3⟩ 1).u := by
  refine ⟨rfl, rfl, ?_⟩
  simp [constantThrustCall, constantThrustMk]

/-! ### Hamiltonian evaluation helpers -/

lemma norm3_pos_circ : norm3 (rvPos ⟨1, 0, 0, 0, 1, 0⟩) = 1 := by
  unfold norm3 rvPos dot3
  norm_num

lemma norm3_vel_circ : norm3 (rvVel ⟨1, 0, 0, 0, 1, 0⟩) = 1 := by
  unfold norm3 rvVel dot3
  norm_num

/-- Evaluation of one Hamiltonian row on the circular equatorial
sample (1,0,0, 0,1,0): both norms are one and sin phi is zero. -/
lemma hamiltonianRow_circular (H : Hamiltonian) :
    hamiltonianRow H ⟨1, 0, 0, 0, 1, 0⟩ =
      0.5 - H.mu - (List.zipWith (zonalVterm H.mu 1 H.r_earth 0) (List.range 5)
        (pysliceStop J2_to_6 ((H.order : ℤ) - 1))).sum := by
  unfold hamiltonianRow
  rw [norm3_pos_circ, norm3_vel_circ]
  norm_num
  ring

/-! ### Claim C10: order zero selects the J2..J5 coefficients -/

/-- C10: with order = 0 the coefficient slice J2_to_6[0:-1] keeps the
J2..J5 entries, so the Hamiltonian evaluates exactly as order = 5 on
every batch, and on the circular sample the order-0 value differs from
the two-body (order-1) value: the J2..J5 terms are included. -/
theorem claim10_order0_equals_order5 :
    (∀ (mu re : ℝ) (T : List ℝ) (X : List RV),
      hamiltonianCall ⟨mu, 0, re⟩ T X = hamiltonianCall ⟨mu, 5, re⟩ T X) ∧
    hamiltonianRow ⟨1, 0, 1⟩ ⟨1, 0, 0, 0, 1, 0⟩ ≠
      hamiltonianRow ⟨1, 1, 1⟩ ⟨1, 0, 0, 0, 1, 0⟩ := by
  constructor
  · intro mu re T X
    have hrow : hamiltonianRow ⟨mu, 0, re⟩ = hamiltonianRow ⟨mu, 5, re⟩ := by
      funext x
      rfl
    unfold hamiltonianCall
    rw [hrow]
  · rw [hamiltonianRow_circular, hamiltonianRow_circular]
    have hs0 : pysliceStop J2_to_6 (((0:ℕ) : ℤ) - 1) =
        [1082.63e-6, -2.52e-6, -1.61e-6, -0.15e-6] := rfl
    have hs1 : pysliceStop J2_to_6 (((1:ℕ) : ℤ) - 1) = ([] : List ℝ) := rfl
    have hr5 : List.range 5 = [0, 1, 2, 3, 4] := rfl
    dsimp only
    rw [hs0, hs1, hr5]
    norm_num [zonalVterm]

/-! ### Claim C8: the stated configuration defaults -/

/-- C8 (code_bug evidence): ZonalGravity.__init__ does default to
mu=1.0, order=2, r_earth=1.0 and Hamiltonian.__init__ defaults mu and
r_earth to 1.0, but its order default is written as 1, not 2: a
default-constructed Hamiltonian evaluates the circular sample to the
pure two-body -0.5, which the order-2 evaluation does not equal. -/
theorem claim8_hamiltonian_default_order_one :
    hamiltonianInitDefaults.order = 1 ∧
    hamiltonianInitDefaults.mu = 1.0 ∧
    hamiltonianInitDefaults.r_earth = 1.0 ∧
    coeZonalGravityInitDefaults.mu = 1.0 ∧
    coeZonalGravityInitDefaults.order = 2 ∧
    coeZonalGravityInitDefaults.r_earth = 1.0 ∧
    hamiltonianRow hamiltonianInitDefaults ⟨1, 0, 0, 0, 1, 0⟩ = -(0.5) ∧
    hamiltonianRow ⟨1.0, 2, 1.0⟩ ⟨1, 0, 0, 0, 1, 0⟩ ≠ -(0.5) := by
  refine ⟨rfl, rfl, rfl, rfl, rfl, rfl, ?_, ?_⟩
  · rw [show hamiltonianInitDefaults = ⟨1.0, 1, 1.0⟩ from rfl, hamiltonianRow_circular]
    have hs1 : pysliceStop J2_to_6 (((1:ℕ) : ℤ) - 1) = ([] : List ℝ) := rfl
    dsimp only
    rw [hs1]
    norm_num
  · rw [hamiltonianRow_circular]
    have hs2 : pysliceStop J2_to_6 (((2:ℕ) : ℤ) - 1) = [1082.63e-6] := rfl
    have hr5 : List.range 5 = [0, 1, 2, 3, 4] := rfl
    dsimp only
    rw [hs2, hr5]
    norm_num [zonalVterm]

/-! ### Claim C3: the Hamiltonian formula for supported orders -/

/-- C3: for every RV row with nonzero position norm and harmonic order
between 1 and 6, Hamiltonian.__call__ returns one-half the squared
velocity norm plus V, where V is minus mu over r plus one standard
zonal potential term per harmonic n = 2..order with sin phi = z/r;
order = 1 gives the pure two-body energy (an empty harmonic sum). -/
theorem claim3_hamiltonian_formula (H : Hamiltonian) (x : RV)
    (h1 : 1 ≤ H.order) (h6 : H.order ≤ 6)
    (hr : norm3 (rvPos x) ≠ 0) :
    hamiltonianRow H x =
      0.5 * norm3 (rvVel x) ^ 2 +
        (-H.mu / norm3 (rvPos x) +
          ((List.range' 2 (H.order - 1)).map
            (specZonalTerm H.mu (norm3 (rvPos x)) H.r_earth
              (x.rz / norm3 (rvPos x)))).sum) := by
  obtain ⟨mu, order, re⟩ := H
  dsimp only at h1 h6 ⊢
  unfold hamiltonianRow
  dsimp only
  have e1 : pysliceStop J2_to_6 (((1:ℕ) : ℤ) - 1) = ([] : List ℝ) := rfl
  have e2 : pysliceStop J2_to_6 (((2:ℕ) : ℤ) - 1) = [1082.63e-6] := rfl
  have e3 : pysliceStop J2_to_6 (((3:ℕ) : ℤ) - 1) = [1082.63e-6, -2.52e-6] := rfl
  have e4 : pysliceStop J2_to_6 (((4:ℕ) : ℤ) - 1) =
    [1082.63e-6, -2.52e-6, -1.61e-6] := rfl
  have e5 : pysliceStop J2_to_6 (((5:ℕ) : ℤ) - 1) =
    [1082.63e-6, -2.52e-6, -1.61e-6, -0.15e-6] := rfl
  have e6 : pysliceStop J2_to_6 (((6:ℕ) : ℤ) - 1) =
    [1082.63e-6, -2.52e-6, -1.61e-6, -0.15e-6, 0.57e-6] := rfl
  have hr5 : List.range 5 = [0, 1, 2, 3, 4] := rfl
  interval_cases order <;>
    simp only [e1, e2, e3, e4, e5, e6, hr5, List.zipWith_cons_cons,
      List.zipWith_nil_right, List.zipWith_nil_left, List.sum_cons, List.sum_nil] <;>
    norm_num [zonalVterm, specZonalTerm, Jstd, List.range'] <;>
    ring

/-- C3 witness: at mu = 1, order = 1, the circular equatorial sample
RV = (1,0,0, 0,1,0) evaluates to the two-body energy -0.5. -/
theorem claim3_hamiltonian_formula_witness :
    hamiltonianRow ⟨1, 1, 1⟩ ⟨1, 0, 0, 0, 1, 0⟩ = -(0.5) := by
  have h := claim3_hamiltonian_formula ⟨1, 1, 1⟩ ⟨1, 0, 0, 0, 1, 0⟩
    (by norm_num) (by norm_num) (by rw [norm3_pos_circ]; norm_num)
  rw [h, norm3_pos_circ, norm3_vel_circ]
  norm_num [List.range']

/-! ### Claim C2: the COE zonal-gravity generator's steps -/

/-- C2: for every time batch and COE batch, the COE ZonalGravity call
is, per sample, the product of the COE GVE matrix evaluated on the
original COE row (with the GVE constructor's default mu = 1.0) with
the LVLH zonal acceleration evaluated on the RV-converted row
rv_coe(X): the conversion feeds only the acceleration model, never the
GVE matrix. -/
theorem claim2_coe_zonal_gravity_steps (zg : CoeZonalGravity) (T : List ℝ)
    (X : List COE) :
    coeZonalGravityCall zg T X =
      X.map (fun x => matVec63 (coe_gve1 1.0 x)
        (lvlhAccel1 zg.mu zg.order zg.r_earth (rv_coe1 1.0 x))) := by
  unfold coeZonalGravityCall lvlhAcceleration rv_coe coe_gve rv_mee mee_coe rv_coe1
  induction X with
  | nil => rfl
  | cons x xs ih =>
    simp only [List.map_cons, List.zipWith_cons_cons, ih]

/-! ### Claim C6: degenerate orbits pass through silently -/

/-- C6 (code_bug evidence): on the rectilinear sample
rv = (1,0,0, 1,0,0), whose angular momentum vanishes (so p = 0 and the
eccentricity-vector magnitude is 1, both degenerate), meeMl0_rv
returns a result batch instead of failing: no converter in the chain
raises DegenerateOrbit. -/
theorem claim6_degenerate_passes_through :
    meeMl0_rv [0] [⟨1, 0, 0, 1, 0, 0⟩] 1 = [⟨0, -1, 0, 0, 0, 0⟩] ∧
    (mee_rv1 1.0 ⟨1, 0, 0, 1, 0, 0⟩).p ≤ 0 ∧
    1 ≤ (mee_rv1 1.0 ⟨1, 0, 0, 1, 0, 0⟩).f ^ 2 +
      (mee_rv1 1.0 ⟨1, 0, 0, 1, 0, 0⟩).g ^ 2 := by
  have hone : ((⟨1, 0⟩ : ℂ)) = 1 := rfl
  have hhv : hVec ⟨1, 0, 0, 1, 0, 0⟩ = ⟨0, 0, 0⟩ := by
    unfold hVec rvPos rvVel cross3
    norm_num
  have hnorm : norm3 (rvPos ⟨1, 0, 0, 1, 0, 0⟩) = 1 := by
    unfold norm3 rvPos dot3
    norm_num
  have hnH : nodeH ⟨1, 0, 0, 1, 0, 0⟩ = 0 := by
    unfold nodeH
    rw [hhv]
    unfold norm3 dot3
    norm_num
  have hnK : nodeK ⟨1, 0, 0, 1, 0, 0⟩ = 0 := by
    unfold nodeK
    rw [hhv]
    unfold norm3 dot3
    norm_num
  have hev : eVec 1.0 ⟨1, 0, 0, 1, 0, 0⟩ = ⟨-1, 0, 0⟩ := by
    unfold eVec
    rw [hhv, hnorm]
    unfold rvPos rvVel cross3 smul3 sub3
    norm_num
  have hmee : mee_rv1 1.0 ⟨1, 0, 0, 1, 0, 0⟩ = ⟨0, -1, 0, 0, 0, 0⟩ := by
    unfold mee_rv1
    rw [hhv, hnH, hnK, hev]
    unfold atan2 rvPos fhat ghat dot3 smul3
    norm_num [hone, Complex.arg_one]
  refine ⟨?_, ?_, ?_⟩
  · unfold meeMl0_rv meeMl0_mee mee_rv
    simp only [List.map_cons, List.map_nil, List.zipWith_cons_cons,
      List.zipWith_nil_left, hmee]
    unfold meeMl0_mee1
    norm_num
  · rw [hmee]
  · rw [hmee]
    norm_num

end OrbitalElements
